import Mathlib

/-!
Verification of `utils/eval_utils.py` from the `nlxgpt` repository.

The file has two independent components: the logit filter `top_filtering`
(top-k, nucleus/top-p and absolute-threshold truncation) and the
early-stopping `ScoreTracker`.

Modelling choices:
* Torch float tensors of logits are modelled as `List ℚ` (exact rationals in
  place of IEEE floats).  `F.softmax` is computed in `ℝ` with the exact
  exponential, so the top-p machinery is `noncomputable` but extensionally
  faithful to the mathematical definition the float code approximates.
* The `-float('Inf')` defaults of `threshold` and `filter_value` have no
  rational counterpart; both stay ordinary parameters, exactly as in the
  source signature, and theorems quantify over them.
* `torch.sort(logits, descending=True)` returns values together with the
  original indices; it is modelled by a stable insertion sort on
  (index, value) pairs.  torch does not fix the order of ties, so any
  deterministic order is a valid realisation; no theorem below depends on
  the tie order.
* In-place tensor mutation (`logits[indices_to_remove] = filter_value`) is
  modelled functionally: each stage maps the previous vector to the next.
* Python exceptions — the `assert logits.dim() == 1` at entry and the
  `IndexError` that `sorted_indices_to_remove[..., 0] = 0` raises on an
  empty 1-D tensor — are modelled by an `Except PyError` wrapper
  (`top_filteringT`) around the pure pipeline, with the input's shape
  carried explicitly by a `TorchTensor` record.
-/

namespace EvalUtils

/-- Values of `torch.sort(logits, descending=True)` (also the value list from
which `torch.topk(logits, k)[0]` is the length-`k` prefix): the logits in
descending order. -/
def sortedDesc (l : List ℚ) : List ℚ :=
  List.insertionSort (fun a b => b ≤ a) l

/-- `torch.topk(logits, top_k)[0][..., -1]` after the clamp
`top_k = min(top_k, logits.size(-1))`: the value of the `top_k`-th largest
logit.  (The source only evaluates it under `0 < top_k ≤ len`, where the
index is in range; the `getD` default is never reached there.) -/
def kthVal (l : List ℚ) (top_k : ℤ) : ℚ :=
  (sortedDesc l).getD ((min top_k (l.length : ℤ)).toNat - 1) 0

/-- Stage 1 of `top_filtering` (lines 16-20): clamp `top_k` to the length;
if the clamped value is positive, set every logit strictly below the
`top_k`-th largest logit to `filter_value`. -/
def topkStage (l : List ℚ) (top_k : ℤ) (filter_value : ℚ) : List ℚ :=
  if 0 < min top_k (l.length : ℤ) then
    l.map (fun x => if x < kthVal l top_k then filter_value else x)
  else l

/-- `torch.sort(logits, descending=True)` on (original index, value) pairs;
`Prod.fst` of each entry is the `sorted_indices` entry, `Prod.snd` the
`sorted_logits` entry. -/
def sortedPairs (l : List ℚ) : List (ℕ × ℚ) :=
  List.insertionSort (fun a b => b.2 ≤ a.2) l.enum

/-- `sorted_indices` from `torch.sort(logits, descending=True)`. -/
def sorted_indices (l : List ℚ) : List ℕ :=
  (sortedPairs l).map Prod.fst

/-- `sorted_logits` from `torch.sort(logits, descending=True)`. -/
def sorted_logits (l : List ℚ) : List ℚ :=
  (sortedPairs l).map Prod.snd

/-- `F.softmax(v, dim=-1)` over the reals: `exp vᵢ / Σⱼ exp vⱼ`. -/
noncomputable def softmax (l : List ℚ) : List ℝ :=
  l.map (fun x => Real.exp (Rat.cast x) / (l.map (fun y => Real.exp (Rat.cast y))).sum)

/-- `torch.cumsum(v, dim=-1)`: entry `i` is the sum of entries `0..i`. -/
def cumsum (l : List ℝ) : List ℝ :=
  (List.range l.length).map (fun i => (l.take (i + 1)).sum)

/-- `sorted_indices_to_remove = cumulative_probabilities > top_p`
(line 28), before the shift. -/
noncomputable def topPMaskRaw (l : List ℚ) (top_p : ℚ) : List Bool :=
  (cumsum (softmax (sorted_logits l))).map (fun c => decide ((top_p : ℝ) < c))

/-- Lines 30-31: `mask[..., 1:] = mask[..., :-1]; mask[..., 0] = 0` — shift
the removal mask one position right and clear the first position.  (On an
empty tensor the source raises instead — see `top_filteringT`; the `[]` case
here makes the pure pipeline total.) -/
def shiftMask (m : List Bool) : List Bool :=
  match m with
  | [] => []
  | _ :: _ => false :: m.dropLast

/-- Boolean mask selection `indices[mask]` (line 34). -/
def maskedSelect : List ℕ → List Bool → List ℕ
  | [], _ => []
  | _ :: _, [] => []
  | i :: rest, b :: bs => if b then i :: maskedSelect rest bs else maskedSelect rest bs

/-- `indices_to_remove = sorted_indices[sorted_indices_to_remove]` for the
top-p stage (line 34), with the shifted mask. -/
noncomputable def topPRemovedIndices (l : List ℚ) (top_p : ℚ) : List ℕ :=
  maskedSelect (sorted_indices l) (shiftMask (topPMaskRaw l top_p))

/-- Stage 2 of `top_filtering` (lines 22-35): if `top_p > 0`, suppress to
`filter_value` every original position selected by the shifted removal
mask. -/
noncomputable def topPStage (l : List ℚ) (top_p : ℚ) (filter_value : ℚ) : List ℚ :=
  if 0 < top_p then
    l.mapIdx (fun i x => if i ∈ topPRemovedIndices l top_p then filter_value else x)
  else l

/-- Stage 3 of `top_filtering` (lines 37-38): suppress every logit strictly
below `threshold`. -/
def thresholdStage (l : List ℚ) (threshold filter_value : ℚ) : List ℚ :=
  l.map (fun x => if x < threshold then filter_value else x)

/-- The pure `top_filtering` pipeline on a 1-D vector: the three stages in
source order, each operating on the output of the previous one. -/
noncomputable def top_filtering (logits : List ℚ) (top_k : ℤ)
    (top_p threshold filter_value : ℚ) : List ℚ :=
  thresholdStage (topPStage (topkStage logits top_k filter_value) top_p filter_value)
    threshold filter_value

/-- Python exceptions the source can raise. -/
inductive PyError where
  | assertionError : PyError
  | indexError : PyError
deriving DecidableEq

/-- A torch tensor, reduced to what the source inspects: its shape (so
`dim()` is `shape.length`) and, for the 1-D case, its data. -/
structure TorchTensor where
  shape : List ℕ
  data : List ℚ
deriving DecidableEq

/-- `top_filtering` with its failure behaviour: the entry assertion
`assert logits.dim() == 1` (line 15) raises `AssertionError` when the shape
is not one-dimensional, and on an empty 1-D tensor with `top_p > 0` the
assignment `sorted_indices_to_remove[..., 0] = 0` (line 31) raises
`IndexError` (index 0 of a size-0 dimension) — the sort, softmax, cumsum and
mask computations before it succeed on an empty tensor and have no effect,
so failing directly is faithful.  All remaining runs return the pure
pipeline's result. -/
noncomputable def top_filteringT (t : TorchTensor) (top_k : ℤ)
    (top_p threshold filter_value : ℚ) : Except PyError (List ℚ) :=
  if t.shape.length ≠ 1 then Except.error PyError.assertionError
  else if 0 < top_p ∧ t.data = [] then Except.error PyError.indexError
  else Except.ok (top_filtering t.data top_k top_p threshold filter_value)

/-- Number of entries the top-k comparison (line 19) does not select for
suppression: those not strictly below the `top_k`-th largest value. -/
def topkSurvivors (l : List ℚ) (top_k : ℤ) : ℕ :=
  (l.filter (fun x => decide (¬ x < kthVal l top_k))).length

/-- Number of original positions the top-p stage does not remove. -/
noncomputable def topPSurvivors (l : List ℚ) (top_p : ℚ) : ℕ :=
  ((List.range l.length).filter (fun i => decide (i ∉ topPRemovedIndices l top_p))).length

/-- The early-stopping tracker's state (`ScoreTracker.__init__` fields, in
source order of assignment: counter, max_score, stop_after_epochs, scores,
stop_training). -/
structure ScoreTracker where
  counter : ℕ
  max_score : ℚ
  stop_after_epochs : ℤ
  scores : List ℚ
  stop_training : Bool
deriving DecidableEq

/-- `ScoreTracker(stop_after_epochs, initial_max)`: counter 0, max the
caller's baseline, empty history, stop flag clear. -/
def ScoreTracker.init (stop_after_epochs : ℤ) (initial_max : ℚ) : ScoreTracker :=
  ⟨0, initial_max, stop_after_epochs, [], false⟩

/-- `ScoreTracker.__call__(score)` (lines 52-71).  When
`stop_after_epochs < 1` the method returns immediately and mutates nothing.
Otherwise: recompute `max_score` as `max(scores)` over the history recorded
so far (keeping the old value on an empty history), append the score,
increment the counter when `score <= max_score` and reset it to 0 otherwise,
and latch `stop_training` once both `len(scores)` and the counter reach
`stop_after_epochs`. -/
def ScoreTracker.call (t : ScoreTracker) (score : ℚ) : ScoreTracker :=
  if t.stop_after_epochs < 1 then t
  else
    let m := match t.scores with
      | [] => t.max_score
      | x :: xs => xs.foldl max x
    let sc := t.scores ++ [score]
    let c := if score ≤ m then t.counter + 1 else 0
    let st := if (sc.length : ℤ) ≥ t.stop_after_epochs ∧ (c : ℤ) ≥ t.stop_after_epochs
      then true else t.stop_training
    ⟨c, m, t.stop_after_epochs, sc, st⟩

/-- `ScoreTracker.stop()`. -/
def ScoreTracker.stop (t : ScoreTracker) : Bool :=
  t.stop_training

/-- Python's `round(x, p)` on exact rationals, scaled integer rounding.
(CPython rounds float ties to even; `round` here rounds ties up.  The two
agree off ties, and no claim below inspects a tie.) -/
def roundTo (x : ℚ) (p : ℕ) : ℚ :=
  (round (x * 10 ^ p) : ℚ) / 10 ^ p

/-- The values `ScoreTracker.print_summary` computes and prints. -/
structure Summary where
  last_score : ℚ
  max_score : ℚ
  score_diff : ℚ
  counter : ℕ
  stop_training : Bool
deriving DecidableEq

/-- `ScoreTracker.print_summary(round_precision)` (lines 75-88), modelled as
the record of values it formats.  Its first statement indexes
`self.scores[-1]`, which raises `IndexError` when the history is empty;
everything after that is total. -/
def ScoreTracker.print_summary (t : ScoreTracker) (round_precision : ℕ) :
    Except PyError Summary :=
  match t.scores.getLast? with
  | none => Except.error PyError.indexError
  | some s =>
    let last_score := roundTo s round_precision
    let max_score := roundTo t.max_score round_precision
    let score_diff := roundTo (last_score - max_score) round_precision
    Except.ok ⟨last_score, max_score, score_diff, t.counter, t.stop_training⟩

/-! Helper lemmas. -/

/-- A disabled tracker's evaluation call is the identity on the state. -/
theorem call_of_disabled (t : ScoreTracker) (s : ℚ) (h : t.stop_after_epochs < 1) :
    t.call s = t := by
  simp [ScoreTracker.call, h]

/-- A disabled tracker is unchanged by any sequence of evaluation calls. -/
theorem foldl_call_of_disabled (seq : List ℚ) (t : ScoreTracker)
    (h : t.stop_after_epochs < 1) :
    seq.foldl ScoreTracker.call t = t := by
  induction seq generalizing t with
  | nil => rfl
  | cons a as ih => rw [List.foldl_cons, call_of_disabled t a h, ih t h]

/-- Stage 1 preserves the length. -/
theorem length_topkStage (l : List ℚ) (K : ℤ) (fv : ℚ) :
    (topkStage l K fv).length = l.length := by
  unfold topkStage; split <;> simp

/-- Stage 2 preserves the length. -/
theorem length_topPStage (l : List ℚ) (p fv : ℚ) :
    (topPStage l p fv).length = l.length := by
  unfold topPStage; split <;> simp

/-- Stage 3 preserves the length. -/
theorem length_thresholdStage (l : List ℚ) (th fv : ℚ) :
    (thresholdStage l th fv).length = l.length := by
  unfold thresholdStage; simp

/-- The whole pipeline preserves the length. -/
theorem length_top_filtering (l : List ℚ) (K : ℤ) (p th fv : ℚ) :
    (top_filtering l K p th fv).length = l.length := by
  unfold top_filtering
  rw [length_thresholdStage, length_topPStage, length_topkStage]

/-- Each entry of stage 1's output is the original entry or `filter_value`. -/
theorem topkStage_getD_or (l : List ℚ) (K : ℤ) (fv : ℚ) (i : ℕ) (h : i < l.length) :
    (topkStage l K fv).getD i 0 = l.getD i 0 ∨ (topkStage l K fv).getD i 0 = fv := by
  unfold topkStage
  split
  · rw [List.getD_eq_getElem _ _ (by simpa using h), List.getD_eq_getElem _ _ h,
      List.getElem_map]
    split
    · right; rfl
    · left; rfl
  · left; rfl

/-- Each entry of stage 2's output is the original entry or `filter_value`. -/
theorem topPStage_getD_or (l : List ℚ) (p fv : ℚ) (i : ℕ) (h : i < l.length) :
    (topPStage l p fv).getD i 0 = l.getD i 0 ∨ (topPStage l p fv).getD i 0 = fv := by
  unfold topPStage
  split
  · rw [List.getD_eq_getElem _ _ (by simpa using h), List.getD_eq_getElem _ _ h,
      List.getElem_mapIdx]
    split
    · right; rfl
    · left; rfl
  · left; rfl

/-- Each entry of stage 3's output is the original entry or `filter_value`. -/
theorem thresholdStage_getD_or (l : List ℚ) (th fv : ℚ) (i : ℕ) (h : i < l.length) :
    (thresholdStage l th fv).getD i 0 = l.getD i 0 ∨ (thresholdStage l th fv).getD i 0 = fv := by
  unfold thresholdStage
  rw [List.getD_eq_getElem _ _ (by simpa using h), List.getD_eq_getElem _ _ h,
    List.getElem_map]
  split
  · right; rfl
  · left; rfl

/-- Each entry of the pipeline's output is the original entry or
`filter_value`, at its original index. -/
theorem top_filtering_getD_or (l : List ℚ) (K : ℤ) (p th fv : ℚ) (i : ℕ)
    (h : i < l.length) :
    (top_filtering l K p th fv).getD i 0 = l.getD i 0 ∨
      (top_filtering l K p th fv).getD i 0 = fv := by
  unfold top_filtering
  have h1 : i < (topkStage l K fv).length := by rw [length_topkStage]; exact h
  have h2 : i < (topPStage (topkStage l K fv) p fv).length := by
    rw [length_topPStage]; exact h1
  rcases thresholdStage_getD_or (topPStage (topkStage l K fv) p fv) th fv i h2 with h3 | h3
  · rw [h3]
    rcases topPStage_getD_or (topkStage l K fv) p fv i h1 with h4 | h4
    · rw [h4]
      exact topkStage_getD_or l K fv i h
    · right; exact h4
  · right; exact h3

/-- The value sort is sorted in descending order. -/
theorem sortedDesc_sorted (l : List ℚ) :
    List.Sorted (fun a b => b ≤ a) (sortedDesc l) :=
  List.sorted_insertionSort _ l

/-- The value sort is a permutation of the input. -/
theorem sortedDesc_perm (l : List ℚ) : List.Perm (sortedDesc l) l :=
  List.perm_insertionSort _ l

/-- The value sort preserves the length. -/
theorem length_sortedDesc (l : List ℚ) : (sortedDesc l).length = l.length :=
  (sortedDesc_perm l).length_eq

/-- The pair sort is a permutation of the enumerated input. -/
theorem sortedPairs_perm (l : List ℚ) : List.Perm (sortedPairs l) l.enum :=
  List.perm_insertionSort _ l.enum

/-- The sorted index list is a permutation of `0, ..., V-1`. -/
theorem sorted_indices_perm (l : List ℚ) :
    List.Perm (sorted_indices l) (List.range l.length) := by
  unfold sorted_indices
  have h := (sortedPairs_perm l).map Prod.fst
  rwa [List.enum_map_fst] at h

/-- There are as many sorted indices as logits. -/
theorem length_sorted_indices (l : List ℚ) : (sorted_indices l).length = l.length := by
  rw [(sorted_indices_perm l).length_eq, List.length_range]

/-- The sorted indices are pairwise distinct. -/
theorem nodup_sorted_indices (l : List ℚ) : (sorted_indices l).Nodup :=
  ((sorted_indices_perm l).nodup_iff).mpr (List.nodup_range _)

/-- Every sorted index is a valid position of the input. -/
theorem mem_sorted_indices_lt (l : List ℚ) (i : ℕ) (h : i ∈ sorted_indices l) :
    i < l.length :=
  List.mem_range.mp (((sorted_indices_perm l).mem_iff).mp h)

/-- There are as many sorted logits as logits. -/
theorem length_sorted_logits (l : List ℚ) : (sorted_logits l).length = l.length := by
  unfold sorted_logits
  rw [List.length_map, (sortedPairs_perm l).length_eq, List.enum_length]

/-- The softmax preserves the length. -/
theorem length_softmax (l : List ℚ) : (softmax l).length = l.length := by
  unfold softmax
  rw [List.length_map]

/-- The cumulative sum preserves the length. -/
theorem length_cumsum (l : List ℝ) : (cumsum l).length = l.length := by
  unfold cumsum
  rw [List.length_map, List.length_range]

/-- The raw removal mask has one entry per logit. -/
theorem length_topPMaskRaw (l : List ℚ) (p : ℚ) :
    (topPMaskRaw l p).length = l.length := by
  unfold topPMaskRaw
  rw [List.length_map, length_cumsum, length_softmax, length_sorted_logits]

/-- The shift preserves the mask length. -/
theorem length_shiftMask (m : List Bool) : (shiftMask m).length = m.length := by
  cases m with
  | nil => rfl
  | cons b bs => simp [shiftMask]

/-- Mask selection yields a sublist of the index list. -/
theorem maskedSelect_sublist : ∀ (idx : List ℕ) (bs : List Bool),
    List.Sublist (maskedSelect idx bs) idx := by
  intro idx
  induction idx with
  | nil =>
    intro bs
    cases bs <;> exact List.nil_sublist _
  | cons i rest ih =>
    intro bs
    cases bs with
    | nil => exact List.nil_sublist _
    | cons b bs' =>
      simp only [maskedSelect]
      split
      · exact (ih bs').cons₂ i
      · exact (ih bs').cons i

/-- Selecting with a pointwise-smaller mask selects at most as many
indices. -/
theorem maskedSelect_length_mono : ∀ (idx : List ℕ) (bs cs : List Bool),
    List.Forall₂ (fun c b => c = true → b = true) cs bs →
    (maskedSelect idx cs).length ≤ (maskedSelect idx bs).length := by
  intro idx
  induction idx with
  | nil =>
    intro bs cs _
    cases bs <;> cases cs <;> simp [maskedSelect]
  | cons i rest ih =>
    intro bs cs hf
    cases hf with
    | nil => simp [maskedSelect]
    | cons hcb hf' =>
      simp only [maskedSelect]
      rename_i c b cs' bs'
      by_cases hc : c = true
      · have hb := hcb hc
        rw [if_pos hc, if_pos hb]
        simpa using ih bs' cs' hf'
      · rw [if_neg hc]
        by_cases hb : b = true
        · rw [if_pos hb]
          exact le_trans (ih bs' cs' hf') (by simp)
        · rw [if_neg hb]
          exact ih bs' cs' hf'

/-- Raising the cutoff from `p1` to `p2` weakens the raw mask pointwise:
whatever the `p2` mask marks, the `p1` mask marks as well. -/
theorem mask_pointwise_le (L : List ℝ) (p1 p2 : ℚ) (h : p1 ≤ p2) :
    List.Forall₂ (fun c b => c = true → b = true)
      (L.map (fun c => decide ((p2 : ℝ) < c))) (L.map (fun c => decide ((p1 : ℝ) < c))) := by
  induction L with
  | nil => exact List.Forall₂.nil
  | cons x xs ih =>
    refine List.Forall₂.cons ?_ ih
    intro hx
    have hx' : (p2 : ℝ) < x := of_decide_eq_true hx
    have hle : (p1 : ℝ) ≤ (p2 : ℝ) := by exact_mod_cast h
    exact decide_eq_true (lt_of_le_of_lt hle hx')

/-- The shift preserves the pointwise mask order. -/
theorem shiftMask_pointwise (bs cs : List Bool)
    (hf : List.Forall₂ (fun c b => c = true → b = true) cs bs) :
    List.Forall₂ (fun c b => c = true → b = true) (shiftMask cs) (shiftMask bs) := by
  cases hf with
  | nil => exact List.Forall₂.nil
  | cons hcb hf' =>
    rename_i c b cs' bs'
    simp only [shiftMask]
    refine List.Forall₂.cons (fun hx => hx) ?_
    have hlen : (c :: cs').length = (b :: bs').length :=
      (List.Forall₂.cons hcb hf').length_eq
    rw [List.dropLast_eq_take, List.dropLast_eq_take, hlen]
    exact List.forall₂_take _ (List.Forall₂.cons hcb hf')

/-- The removed index list is a sublist of the sorted indices. -/
theorem topPRemovedIndices_sublist (l : List ℚ) (p : ℚ) :
    List.Sublist (topPRemovedIndices l p) (sorted_indices l) :=
  maskedSelect_sublist _ _

/-- The removed indices are pairwise distinct. -/
theorem topPRemovedIndices_nodup (l : List ℚ) (p : ℚ) :
    (topPRemovedIndices l p).Nodup :=
  (topPRemovedIndices_sublist l p).nodup (nodup_sorted_indices l)

/-- A larger cutoff removes at most as many indices. -/
theorem topPRemovedIndices_length_mono (l : List ℚ) (p1 p2 : ℚ) (h : p1 ≤ p2) :
    (topPRemovedIndices l p2).length ≤ (topPRemovedIndices l p1).length := by
  unfold topPRemovedIndices topPMaskRaw
  exact maskedSelect_length_mono _ _ _
    (shiftMask_pointwise _ _ (mask_pointwise_le _ p1 p2 h))

/-- Counting the positions of `0, ..., n-1` outside a duplicate-free list of
valid positions. -/
theorem length_filter_not_mem (n : ℕ) (R : List ℕ) (hnd : R.Nodup)
    (hlt : ∀ r ∈ R, r < n) :
    ((List.range n).filter (fun i => decide (i ∉ R))).length = n - R.length := by
  have hmem : ((List.range n).filter (fun i => decide (i ∈ R))).length = R.length := by
    have hperm : List.Perm ((List.range n).filter (fun i => decide (i ∈ R))) R := by
      refine (List.perm_ext_iff_of_nodup ((List.nodup_range n).filter _) hnd).mpr ?_
      intro a
      simp only [List.mem_filter, List.mem_range, decide_eq_true_eq]
      exact ⟨fun h => h.2, fun h => ⟨hlt a h, h⟩⟩
    exact hperm.length_eq
  have hsplit := @List.length_eq_length_filter_add ℕ (List.range n)
    (fun i => decide (i ∈ R))
  have hcongr : ((List.range n).filter (fun i => !(decide (i ∈ R)))).length =
      ((List.range n).filter (fun i => decide (i ∉ R))).length := by
    simp [decide_not]
  rw [List.length_range] at hsplit
  omega

/-- The survivor count complements the removed count. -/
theorem topPSurvivors_eq (l : List ℚ) (p : ℚ) :
    topPSurvivors l p = l.length - (topPRemovedIndices l p).length := by
  unfold topPSurvivors
  exact length_filter_not_mem l.length _ (topPRemovedIndices_nodup l p)
    (fun r hr => mem_sorted_indices_lt l r ((topPRemovedIndices_sublist l p).subset hr))

/-! Claim theorems. -/

/-- C6: with `stop_after_epochs = 3`, `initial_max = 0` and the scores
0.5, 0.4, 0.3, 0.2 recorded in order, after the 3rd call the history has 3
entries, the counter is 2 and `stop()` is false; after the 4th call the
counter is 3, the history has 4 entries and `stop()` is true. -/
theorem scoreTracker_patience_scenario :
    ((((ScoreTracker.init 3 0).call (1/2)).call (2/5)).call (3/10)).scores.length = 3 ∧
    ((((ScoreTracker.init 3 0).call (1/2)).call (2/5)).call (3/10)).counter = 2 ∧
    ((((ScoreTracker.init 3 0).call (1/2)).call (2/5)).call (3/10)).stop = false ∧
    (((((ScoreTracker.init 3 0).call (1/2)).call (2/5)).call (3/10)).call (1/5)).counter = 3 ∧
    (((((ScoreTracker.init 3 0).call (1/2)).call (2/5)).call (3/10)).call (1/5)).scores.length = 4 ∧
    (((((ScoreTracker.init 3 0).call (1/2)).call (2/5)).call (3/10)).call (1/5)).stop = true := by
  norm_num [ScoreTracker.call, ScoreTracker.init, ScoreTracker.stop, max_def]

/-- C7: a tracker constructed with `stop_after_epochs < 1` is left unchanged
by every evaluation call, and `stop()` stays false after any sequence of
calls. -/
theorem scoreTracker_disabled_frame (sae : ℤ) (im : ℚ) (s : ℚ) (seq : List ℚ)
    (h : sae < 1) :
    (ScoreTracker.init sae im).call s = ScoreTracker.init sae im ∧
    seq.foldl ScoreTracker.call (ScoreTracker.init sae im) = ScoreTracker.init sae im ∧
    (seq.foldl ScoreTracker.call (ScoreTracker.init sae im)).stop = false := by
  refine ⟨call_of_disabled _ _ h, foldl_call_of_disabled _ _ h, ?_⟩
  rw [foldl_call_of_disabled _ _ h]
  rfl

/-- Witness for C7 at `stop_after_epochs = 0`, `initial_max = 0`, score 5,
sequence `[1, 2]`. -/
theorem scoreTracker_disabled_frame_witness :
    (ScoreTracker.init 0 0).call 5 = ScoreTracker.init 0 0 ∧
    [1, 2].foldl ScoreTracker.call (ScoreTracker.init 0 0) = ScoreTracker.init 0 0 ∧
    ([1, 2].foldl ScoreTracker.call (ScoreTracker.init 0 0)).stop = false :=
  scoreTracker_disabled_frame 0 0 5 [1, 2] (by decide)

/-- C10: `print_summary` on a tracker whose score history is empty raises
(models the `IndexError` from `self.scores[-1]`). -/
theorem print_summary_empty_raises (t : ScoreTracker) (rp : ℕ) (h : t.scores = []) :
    t.print_summary rp = Except.error PyError.indexError := by
  simp [ScoreTracker.print_summary, h]

/-- Witness for C10: a freshly constructed tracker. -/
theorem print_summary_empty_raises_witness :
    (ScoreTracker.init 5 0).print_summary 3 = Except.error PyError.indexError :=
  print_summary_empty_raises (ScoreTracker.init 5 0) 3 rfl

/-- C8: the filter returns a vector of the same length in which every
element is either its original value or `filter_value`, with no reordering —
each position is compared with the same position of the input. -/
theorem top_filtering_invariants (l : List ℚ) (K : ℤ) (p th fv : ℚ) :
    (top_filtering l K p th fv).length = l.length ∧
    ∀ i, i < l.length →
      (top_filtering l K p th fv).getD i 0 = l.getD i 0 ∨
      (top_filtering l K p th fv).getD i 0 = fv :=
  ⟨length_top_filtering l K p th fv, fun i h => top_filtering_getD_or l K p th fv i h⟩

/-- Witness for C8 at `logits = [3, 1]`, `top_k = 1`, `top_p = 0`,
`threshold = 0`, `filter_value = -5`, position 0. -/
theorem top_filtering_invariants_witness :
    (top_filtering [3, 1] 1 0 0 (-5)).length = ([3, 1] : List ℚ).length ∧
    ((top_filtering [3, 1] 1 0 0 (-5)).getD 0 0 = ([3, 1] : List ℚ).getD 0 0 ∨
      (top_filtering [3, 1] 1 0 0 (-5)).getD 0 0 = -5) :=
  ⟨(top_filtering_invariants [3, 1] 1 0 0 (-5)).1,
    (top_filtering_invariants [3, 1] 1 0 0 (-5)).2 0 (by norm_num)⟩

/-- C1 counterexample: with `logits = [1, 2]`, `top_k = 1`, `top_p = 0`,
`threshold = -1000` and `filter_value = 100`, one application gives
`[100, 2]` but a second application also suppresses the surviving logit 2
(it is now strictly below the largest value 100), giving `[100, 100]` —
the filter is not idempotent for every parameter setting. -/
theorem top_filtering_not_idempotent :
    top_filtering (top_filtering [1, 2] 1 0 (-1000) 100) 1 0 (-1000) 100 ≠
      top_filtering [1, 2] 1 0 (-1000) 100 := by
  norm_num [top_filtering, topkStage, topPStage, thresholdStage, kthVal, sortedDesc,
    List.insertionSort, List.orderedInsert]

/-- C1 amended: the filter need not be idempotent (a second application can
suppress additional entries), but suppression persists: every position that
holds `filter_value` after one application still holds `filter_value` after
applying the filter again with identical parameters. -/
theorem top_filtering_suppression_persists (l : List ℚ) (K : ℤ) (p th fv : ℚ) (i : ℕ)
    (h : i < l.length)
    (hs : (top_filtering l K p th fv).getD i 0 = fv) :
    (top_filtering (top_filtering l K p th fv) K p th fv).getD i 0 = fv := by
  have hlen : i < (top_filtering l K p th fv).length := by
    rw [length_top_filtering]; exact h
  rcases top_filtering_getD_or (top_filtering l K p th fv) K p th fv i hlen with h1 | h1
  · rw [h1, hs]
  · exact h1

/-- Witness for the amended C1: position 0 of `[1, 2]` is suppressed to 100
by one application and still reads 100 after the second. -/
theorem top_filtering_suppression_persists_witness :
    (top_filtering (top_filtering [1, 2] 1 0 (-1000) 100) 1 0 (-1000) 100).getD 0 0 = 100 :=
  top_filtering_suppression_persists [1, 2] 1 0 (-1000) 100 0 (by norm_num)
    (by norm_num [top_filtering, topkStage, topPStage, thresholdStage, kthVal, sortedDesc,
      List.insertionSort, List.orderedInsert])

/-- C5: every entry equal to the `top_k`-th largest value survives stage 1
unchanged (ties at the boundary are all kept, so more than `top_k` entries
may survive), and an entry stage 1 changes is strictly below that value. -/
theorem topkStage_ties_kept (l : List ℚ) (K : ℤ) (fv : ℚ) (hK : 0 < K) (i : ℕ)
    (h : i < l.length) :
    (l.getD i 0 = kthVal l K → (topkStage l K fv).getD i 0 = l.getD i 0) ∧
    ((topkStage l K fv).getD i 0 ≠ l.getD i 0 → l.getD i 0 < kthVal l K) := by
  have hpos : 0 < min K (l.length : ℤ) := by
    have hl : (0 : ℤ) < l.length := by exact_mod_cast Nat.pos_of_ne_zero (by omega)
    omega
  unfold topkStage
  rw [if_pos hpos, List.getD_eq_getElem _ _ h,
    List.getD_eq_getElem _ _ (by simpa using h), List.getElem_map]
  constructor
  · intro he
    rw [he, if_neg (lt_irrefl _)]
  · intro hne
    by_contra hnlt
    rw [if_neg hnlt] at hne
    exact hne rfl

/-- Witness for C5 at `logits = [5, 3, 3, 1]`, `top_k = 2`: the 2nd largest
value is 3, position 2 also holds 3 and survives, giving 3 survivors. -/
theorem topkStage_ties_kept_witness :
    (([5, 3, 3, 1] : List ℚ).getD 2 0 = kthVal [5, 3, 3, 1] 2 →
      (topkStage [5, 3, 3, 1] 2 (-9)).getD 2 0 = ([5, 3, 3, 1] : List ℚ).getD 2 0) ∧
    ((topkStage [5, 3, 3, 1] 2 (-9)).getD 2 0 ≠ ([5, 3, 3, 1] : List ℚ).getD 2 0 →
      ([5, 3, 3, 1] : List ℚ).getD 2 0 < kthVal [5, 3, 3, 1] 2) :=
  topkStage_ties_kept [5, 3, 3, 1] 2 (-9) (by norm_num) 2 (by norm_num)

/-- C4: on logits with pairwise-distinct entries and integer `top_k = K > 0`,
the number of entries the top-k stage does not suppress is exactly
`min K V` — that is, `K`, or `V` when `K ≥ V`. -/
theorem topk_count_exact (l : List ℚ) (K : ℤ) (hnd : l.Nodup) (hK : 0 < K) :
    topkSurvivors l K = min K.toNat l.length := by
  rcases Nat.eq_zero_or_pos l.length with hn | hn
  · have hl : l = [] := List.length_eq_zero.mp hn
    subst hl
    simp [topkSurvivors]
  · have hm1 : 1 ≤ (min K (l.length : ℤ)).toNat := by omega
    have hmn : (min K (l.length : ℤ)).toNat ≤ l.length := by omega
    have hmin : (min K (l.length : ℤ)).toNat = min K.toNat l.length := by omega
    have hs_sorted := sortedDesc_sorted l
    have hs_nodup : (sortedDesc l).Nodup := ((sortedDesc_perm l).nodup_iff).mpr hnd
    have hs_len : (sortedDesc l).length = l.length := length_sortedDesc l
    have hidx : (min K (l.length : ℤ)).toNat - 1 < (sortedDesc l).length := by omega
    have hkth : kthVal l K = (sortedDesc l)[(min K (l.length : ℤ)).toNat - 1] := by
      unfold kthVal
      exact List.getD_eq_getElem _ _ hidx
    unfold topkSurvivors
    rw [← List.countP_eq_length_filter, ← (sortedDesc_perm l).countP_eq,
      ← List.take_append_drop ((min K (l.length : ℤ)).toNat) (sortedDesc l),
      List.countP_append]
    have htake : List.countP (fun x => decide (¬ x < kthVal l K))
        ((sortedDesc l).take ((min K (l.length : ℤ)).toNat)) =
        (min K (l.length : ℤ)).toNat := by
      have hall : ∀ a ∈ (sortedDesc l).take ((min K (l.length : ℤ)).toNat),
          (fun x => decide (¬ x < kthVal l K)) a = true := by
        intro a ha
        obtain ⟨j, hj, rfl⟩ := List.mem_iff_getElem.mp ha
        have hjm : j < (min K (l.length : ℤ)).toNat := by
          have := hj
          rw [List.length_take] at this
          omega
        have hjs : j < (sortedDesc l).length := by omega
        rw [List.getElem_take]
        have hrel := @List.Sorted.rel_get_of_le ℚ (fun a b => b ≤ a) _ _ hs_sorted
          ⟨j, hjs⟩ ⟨(min K (l.length : ℤ)).toNat - 1, hidx⟩
          (by simp only [Fin.mk_le_mk]; omega)
        simp only [List.get_eq_getElem] at hrel
        simp only [decide_eq_true_eq, not_lt, hkth]
        exact hrel
      rw [List.countP_eq_length.mpr hall, List.length_take]
      omega
    have hdrop : List.countP (fun x => decide (¬ x < kthVal l K))
        ((sortedDesc l).drop ((min K (l.length : ℤ)).toNat)) = 0 := by
      apply List.countP_eq_zero.mpr
      intro a ha
      obtain ⟨j, hj, rfl⟩ := List.mem_iff_getElem.mp ha
      have hjs : (min K (l.length : ℤ)).toNat + j < (sortedDesc l).length := by
        have := hj
        rw [List.length_drop] at this
        omega
      rw [List.getElem_drop]
      have hrel := @List.Sorted.rel_get_of_le ℚ (fun a b => b ≤ a) _ _ hs_sorted
        ⟨(min K (l.length : ℤ)).toNat - 1, hidx⟩
        ⟨(min K (l.length : ℤ)).toNat + j, hjs⟩
        (by simp only [Fin.mk_le_mk]; omega)
      simp only [List.get_eq_getElem] at hrel
      have hne : (sortedDesc l)[(min K (l.length : ℤ)).toNat + j] ≠
          (sortedDesc l)[(min K (l.length : ℤ)).toNat - 1] := by
        intro he
        have := (List.Nodup.getElem_inj_iff hs_nodup).mp he
        omega
      simp only [decide_eq_true_eq, not_not, hkth]
      exact lt_of_le_of_ne hrel hne
    rw [htake, hdrop, hmin]
    omega


/-- Witness for C4 at `logits = [1, 3, 2]`, `top_k = 2`: two entries (3 and
2) survive stage 1. -/
theorem topk_count_exact_witness :
    topkSurvivors [1, 3, 2] 2 = min (Int.toNat 2) ([1, 3, 2] : List ℚ).length :=
  topk_count_exact [1, 3, 2] 2 (by norm_num) (by norm_num)

/-- C2: with `top_p` in (0, 1] on a nonempty vector (the source raises on an
empty one — see `top_filteringT`), the first position in descending-score
order is never removed by the top-p stage: it is not among the removed
indices, it is a valid position, its entry passes through unchanged, and
consequently at least one entry survives the stage. -/
theorem topP_first_position_survives (l : List ℚ) (p fv : ℚ) (hne : l ≠ [])
    (hp0 : 0 < p) (hp1 : p ≤ 1) :
    (sorted_indices l).headI < l.length ∧
    (sorted_indices l).headI ∉ topPRemovedIndices l p ∧
    (topPStage l p fv).getD ((sorted_indices l).headI) 0 =
      l.getD ((sorted_indices l).headI) 0 ∧
    0 < topPSurvivors l p := by
  have hlen0 : 0 < l.length := List.length_pos.mpr hne
  have hsi := length_sorted_indices l
  have hsine : sorted_indices l ≠ [] := by
    intro h
    rw [h] at hsi
    simp at hsi
    omega
  obtain ⟨i0, rest, hcons⟩ := List.exists_cons_of_ne_nil hsine
  have hhead : (sorted_indices l).headI = i0 := by rw [hcons]; rfl
  have hmne : topPMaskRaw l p ≠ [] := by
    intro h
    have hm := length_topPMaskRaw l p
    rw [h] at hm
    simp at hm
    omega
  obtain ⟨c, cs, hmcons⟩ := List.exists_cons_of_ne_nil hmne
  have hrem : topPRemovedIndices l p = maskedSelect rest (topPMaskRaw l p).dropLast := by
    unfold topPRemovedIndices
    rw [hcons]
    rw [hmcons]
    simp [shiftMask, maskedSelect]
  have hnotmem : i0 ∉ topPRemovedIndices l p := by
    rw [hrem]
    intro hmem
    have hsubs := (maskedSelect_sublist rest (topPMaskRaw l p).dropLast).subset hmem
    have hnd := nodup_sorted_indices l
    rw [hcons] at hnd
    exact (List.nodup_cons.mp hnd).1 hsubs
  have hi0lt : i0 < l.length := mem_sorted_indices_lt l i0 (by
    rw [hcons]
    exact List.mem_cons_self _ _)
  rw [hhead]
  refine ⟨hi0lt, hnotmem, ?_, ?_⟩
  · unfold topPStage
    rw [if_pos hp0]
    have hlen2 : i0 < (List.mapIdx
        (fun i x => if i ∈ topPRemovedIndices l p then fv else x) l).length := by
      rw [List.length_mapIdx]
      exact hi0lt
    rw [List.getD_eq_getElem _ _ hlen2, List.getD_eq_getElem _ _ hi0lt,
      List.getElem_mapIdx, if_neg hnotmem]
  · unfold topPSurvivors
    have hmemf : i0 ∈ (List.range l.length).filter
        (fun i => decide (i ∉ topPRemovedIndices l p)) := by
      rw [List.mem_filter]
      exact ⟨List.mem_range.mpr hi0lt, decide_eq_true hnotmem⟩
    exact List.length_pos.mpr (List.ne_nil_of_mem hmemf)

/-- Witness for C2 at `logits = [1, 2]`, `top_p = 1/2`, `filter_value = -7`. -/
theorem topP_first_position_survives_witness :
    (sorted_indices [1, 2]).headI < ([1, 2] : List ℚ).length ∧
    (sorted_indices [1, 2]).headI ∉ topPRemovedIndices [1, 2] (1/2) ∧
    (topPStage [1, 2] (1/2) (-7)).getD ((sorted_indices [1, 2]).headI) 0 =
      ([1, 2] : List ℚ).getD ((sorted_indices [1, 2]).headI) 0 ∧
    0 < topPSurvivors [1, 2] (1/2) :=
  topP_first_position_survives [1, 2] (1/2) (-7) (by simp) (by norm_num) (by norm_num)

/-- C3: for a fixed logits vector, raising `top_p` (within the regime where
the stage runs) never decreases the number of positions surviving the top-p
stage. -/
theorem topP_survivors_mono (l : List ℚ) (p1 p2 : ℚ) (hp1 : 0 < p1)
    (hlt : p1 < p2) :
    topPSurvivors l p1 ≤ topPSurvivors l p2 := by
  rw [topPSurvivors_eq, topPSurvivors_eq]
  have hmono := topPRemovedIndices_length_mono l p1 p2 (le_of_lt hlt)
  omega

/-- Witness for C3 at `logits = [1, 2]`, `p1 = 1/2`, `p2 = 3/4`. -/
theorem topP_survivors_mono_witness :
    topPSurvivors [1, 2] (1/2) ≤ topPSurvivors [1, 2] (3/4) :=
  topP_survivors_mono [1, 2] (1/2) (3/4) (by norm_num) (by norm_num)

/-- C9 counterexample: the empty tensor of shape `(0,)` is one-dimensional,
yet with `top_p = 9/10 > 0` the filter raises `IndexError` at
`sorted_indices_to_remove[..., 0] = 0` — so "no error is raised for every
one-dimensional input" fails. -/
theorem top_filtering_empty_input_raises :
    top_filteringT (TorchTensor.mk [0] []) 0 (9/10) 0 0 =
      Except.error PyError.indexError ∧
    (TorchTensor.mk [0] []).shape.length = 1 := by
  constructor
  · unfold top_filteringT
    norm_num
  · rfl

/-- C9 amended: the filter succeeds exactly when the input is
one-dimensional and, additionally, is nonempty or has `top_p ≤ 0`; it fails
with the shape-precondition violation on any input whose dimension count is
not 1, and with an `IndexError` on the empty 1-D input when `top_p > 0`.
Degenerate `top_k ≤ 0` and `top_p ≤ 0` never cause an error. -/
theorem top_filteringT_ok_iff (t : TorchTensor) (K : ℤ) (p th fv : ℚ) :
    (∃ out, top_filteringT t K p th fv = Except.ok out) ↔
      (t.shape.length = 1 ∧ (t.data ≠ [] ∨ p ≤ 0)) := by
  unfold top_filteringT
  by_cases h1 : t.shape.length ≠ 1
  · rw [if_pos h1]
    simp [h1]
  · rw [if_neg h1]
    push_neg at h1
    by_cases h2 : 0 < p ∧ t.data = []
    · rw [if_pos h2]
      simp only [h1, true_and]
      constructor
      · intro ⟨out, hout⟩
        exact absurd hout (by simp)
      · intro hor
        rcases hor with hd | hp
        · exact absurd h2.2 hd
        · exact absurd h2.1 (not_lt.mpr hp)
    · rw [if_neg h2]
      simp only [h1, true_and]
      constructor
      · intro _
        by_cases hd : t.data = []
        · right
          by_contra hp
          push_neg at hp
          exact h2 ⟨hp, hd⟩
        · left; exact hd
      · intro _
        exact ⟨_, rfl⟩

end EvalUtils
